import Mathlib

/-!
Verification of `src/detach/IosUtils.js` (xdl iOS signing utilities).

The file shallowly embeds the module's core logic:
* the entitlements merge performed by `createEntitlementsFile` (lines 209-218),
* the export-method resolver `resolveExportMethod` (lines 143-151),
* the archive-entitlements discovery check (lines 196-201),
* the certificate fingerprint computation `genCertFingerprint` (lines 21-45)
  and its caller `ensureCertificateValid` (lines 10-19).

External collaborators (the `node-forge` PKCS#12/SHA-1 library, the
`security find-identity` process, the filesystem and glob) are modelled as
parameters: the forge pipeline is a `ForgeModel` record of abstract
functions, the identity listing and the glob match list are plain inputs.
Everything written in JavaScript in the module itself is translated
directly.
-/

set_option autoImplicit false

namespace IosUtils

/-- Plist/JavaScript values as they flow through the module: `plist.parse`
results, provisioning-profile metadata and entitlement values.  `undef` and
`null` are included because the JavaScript code can receive absent
properties. -/
inductive JSValue where
  | undef
  | null
  | bool (b : Bool)
  | num (n : Int)
  | str (s : String)
  | arr (xs : List JSValue)
  | dict (d : List (String × JSValue))

/-- A JavaScript object, as an association list of own enumerable
properties in insertion order. -/
abbrev EDict := List (String × JSValue)

/-- JavaScript truthiness: `false`, `0`, `""`, `null`, `undefined` are
falsy; every object (arrays and dictionaries included) is truthy. -/
def truthy : JSValue → Bool
  | JSValue.undef => false
  | .null => false
  | .bool b => b
  | .num n => n != 0
  | .str s => !s.isEmpty
  | .arr _ => true
  | .dict _ => true

/-- `v === true` (JavaScript strict equality against the literal `true`). -/
def isTrue : JSValue → Bool
  | .bool true => true
  | _ => false

/-- Property read returning `Option`: the first entry with the given key. -/
def lookupKey : EDict → String → Option JSValue
  | [], _ => none
  | p :: t, k => if p.1 == k then some p.2 else lookupKey t k

/-- Does the object have own property `k`? -/
def hasKey : EDict → String → Bool
  | [], _ => false
  | p :: t, k => p.1 == k || hasKey t k

/-- Property read `d.k` on an object: the value when present, `undefined`
otherwise. -/
def jsGet (d : EDict) (k : String) : JSValue :=
  (lookupKey d k).getD JSValue.undef

/-- Property write `d[k] = v`: overwrites in place when the key exists
(keeping its position, as JavaScript objects do), appends otherwise. -/
def setKey (d : EDict) (k : String) (v : JSValue) : EDict :=
  if hasKey d k then d.map (fun p => if p.1 == k then (k, v) else p)
  else d ++ [(k, v)]

/-- The module constant `entitlementTransferRules` (lines 153-167),
verbatim. -/
def entitlementTransferRules : List String :=
  [ "com.apple.developer.associated-domains"
  , "com.apple.developer.healthkit"
  , "com.apple.developer.homekit"
  , "com.apple.developer.icloud-container-identifiers"
  , "com.apple.developer.icloud-services"
  , "com.apple.developer.in-app-payments"
  , "com.apple.developer.networking.vpn.api"
  , "com.apple.developer.ubiquity-container-identifiers"
  , "com.apple.developer.ubiquity-kvstore-identifier"
  , "com.apple.external-accessory.wireless-configuration"
  , "com.apple.security.application-groups"
  , "inter-app-audio"
  , "keychain-access-groups" ]

/-- The module constant `blacklistedEntitlementKeys` (lines 169-183),
verbatim. -/
def blacklistedEntitlementKeys : List String :=
  [ "com.apple.developer.icloud-container-development-container-identifiers"
  , "com.apple.developer.icloud-container-environment"
  , "com.apple.developer.icloud-container-identifiers"
  , "com.apple.developer.icloud-services"
  , "com.apple.developer.restricted-resource-mode"
  , "com.apple.developer.ubiquity-container-identifiers"
  , "com.apple.developer.ubiquity-kvstore-identifier"
  , "inter-app-audio"
  , "com.apple.developer.homekit"
  , "com.apple.developer.healthkit"
  , "com.apple.developer.in-app-payments"
  , "com.apple.developer.maps"
  , "com.apple.external-accessory.wireless-configuration" ]

/-- The transfer loop of `createEntitlementsFile` (lines 210-214): for each
rule present in the archive entitlements, copy the archive's value into the
working dictionary.  Folding over the rule list in order, exactly as
`forEach` does. -/
def applyTransferRules (rules : List String) (archive : EDict) (ent : EDict) : EDict :=
  rules.foldl
    (fun acc rule =>
      match lookupKey archive rule with
      | some v => setKey acc rule v
      | none => acc)
    ent

/-- The entitlements merge of `createEntitlementsFile` (lines 209-218): a
copy of the profile entitlements, transfer-rule keys overwritten from the
archive, every blacklisted key dropped (`_.pickBy` keeps the entries whose
key is not blacklisted).  The rule sets are parameters here; the module
always passes `entitlementTransferRules` and `blacklistedEntitlementKeys`. -/
def mergeEntitlements (profile archive : EDict) (rules blacklist : List String) : EDict :=
  (applyTransferRules rules archive profile).filter
    (fun p => !blacklist.contains p.1)

/-- `resolveExportMethod` (lines 143-151), translated directly from the source:
`if (plistData.ProvisionedDevices)` is a truthiness test, and
`plistData.ProvisionsAllDevices === true` a strict comparison. -/
def resolveExportMethod (plistData : EDict) : String :=
  if truthy (jsGet plistData "ProvisionedDevices") then "ad-hoc"
  else if isTrue (jsGet plistData "ProvisionsAllDevices") then "enterprise"
  else "app-store"

/-- Object spread `{...v}`: copies own enumerable properties.  A dictionary
contributes its entries; a string contributes indexed one-character
properties; `undefined`, `null`, booleans and numbers contribute nothing;
an array contributes its indexed elements. -/
def jsSpread : JSValue → EDict
  | .dict d => d
  | .str s => s.data.enum.map (fun p => (toString p.1, JSValue.str (String.mk [p.2])))
  | .arr xs => xs.enum.map (fun p => (toString p.1, p.2))
  | _ => []

/-- Errors the JavaScript runtime itself raises in `createEntitlementsFile`. -/
inductive JSError where
  | typeError
deriving DecidableEq

/-- The `in` operator, `key in v`: property membership for objects (an
array's own keys are its indices and `length`), a `TypeError` for
primitives.  Prototype-inherited method names are not modelled; none of the
fixed transfer-rule keys collides with one. -/
def jsIn (key : String) : JSValue → Except JSError Bool
  | .dict d => .ok (hasKey d key)
  | .arr xs => .ok ((List.range xs.length).any (fun i => toString i == key) || key == "length")
  | _ => .error .typeError

/-- Indexed read `v[key]` for the values `jsIn` approves of. -/
def jsGetVal : JSValue → String → JSValue
  | .dict d, k => jsGet d k
  | .arr xs, k =>
      if k == "length" then .num xs.length
      else
        match xs.enum.find? (fun p => toString p.1 == k) with
        | some p => p.2
        | none => JSValue.undef
  | _, _ => JSValue.undef

/-- The merge step of `createEntitlementsFile` (lines 209-218) exactly as
typed in JavaScript, before any assumption that the inputs are objects:
`entitlements = {...profile}`, then the `forEach` over
`entitlementTransferRules` guarded by `rule in archive`, then `_.pickBy`
dropping blacklisted keys.  A non-object `archive` makes the first `in`
test throw. -/
def transferStepJS (archive : JSValue) (acc : EDict) (rule : String) :
    Except JSError EDict := do
  let present ← jsIn rule archive
  if present then pure (setKey acc rule (jsGetVal archive rule))
  else pure acc

def mergeEntitlementsJS (profile archive : JSValue) : Except JSError EDict := do
  let ent ← entitlementTransferRules.foldlM (transferStepJS archive) (jsSpread profile)
  pure (ent.filter (fun p => !blacklistedEntitlementKeys.contains p.1))

/-- Errors of the archive-entitlements discovery step. -/
inductive DiscoveryError where
  | archiveEntitlementsNotFound
  | archiveEntitlementsAmbiguous
deriving DecidableEq

/-- Lines 196-202 of `createEntitlementsFile`: given the list of glob
matches for `Products/Applications/ExpoKitApp.app/*.entitlements`, throw on
zero matches, throw on more than one, and proceed with the single path
otherwise. -/
def selectArchiveEntitlementsPath (entitlementsPaths : List String) :
    Except DiscoveryError String :=
  if entitlementsPaths.length == 0 then .error .archiveEntitlementsNotFound
  else if entitlementsPaths.length != 1 then .error .archiveEntitlementsAmbiguous
  else .ok entitlementsPaths.headI

/-- The standard base64 alphabet, as used by `Buffer.toString('base64')`. -/
def base64Alphabet : List Char :=
  "ABCDEFGHIJKLMNOPQRSTUVWXYZabcdefghijklmnopqrstuvwxyz0123456789+/".data

/-- One alphabet character for a 6-bit group. -/
def b64Char (n : Nat) : Char := base64Alphabet.getD (n % 64) '='

/-- Base64 of a byte list, three bytes at a time with `=` padding, as
`Buffer.toString('base64')` produces. -/
def base64Chunks : List Nat → List Char
  | [] => []
  | [b1] => [b64Char (b1 / 4), b64Char (b1 % 4 * 16), '=', '=']
  | [b1, b2] => [b64Char (b1 / 4), b64Char (b1 % 4 * 16 + b2 / 16), b64Char (b2 % 16 * 4), '=']
  | b1 :: b2 :: b3 :: rest =>
      b64Char (b1 / 4) :: b64Char (b1 % 4 * 16 + b2 / 16) ::
        b64Char (b2 % 16 * 4 + b3 / 64) :: b64Char (b3 % 64) :: base64Chunks rest

/-- `Buffer.prototype.toString('base64')`: the canonical base64 string of a
byte sequence. -/
def base64Encode (bytes : List Nat) : String := String.mk (base64Chunks bytes)

/-- Lower-case hex digit for a 4-bit group, matching forge's digest
`toHex`. -/
def hexDigit (n : Nat) : Char :=
  if n % 16 < 10 then Char.ofNat (48 + n % 16) else Char.ofNat (87 + n % 16)

/-- Two lower-case hex characters per byte, high nibble first. -/
def toHexChars : List Nat → List Char
  | [] => []
  | b :: t => hexDigit (b / 16) :: hexDigit (b % 16) :: toHexChars t

/-- `digest().toHex()`: two lower-case hex characters per byte. -/
def toHexStr (bytes : List Nat) : String :=
  String.mk (toHexChars bytes)

/-- `String.prototype.toUpperCase()` restricted to ASCII, which is all the
hex output contains. -/
def jsToUpperCase (s : String) : String := String.mk (s.data.map Char.toUpper)

/-- A certificate as the merge of forge steps the code applies to it:
`certificateToAsn1` followed by `asn1.toDer(...).getBytes()` yields its DER
byte string, which is what the digest consumes. -/
structure Cert where
  der : List Nat
deriving DecidableEq

/-- Abstract model of the `node-forge` collaborator used by
`genCertFingerprint`.  `pkcs12Decode` stands for the composite
`decode64` / `asn1.fromDer` / `pkcs12FromAsn1` / `getBags(certBag)` pipeline:
from the base64 text and password to the list of certificates found in cert
bags, or a thrown decoding error.  `sha1` stands for
`forge.md.sha1.create().update(..).digest()`: the digest bytes of the DER
input. -/
structure ForgeModel where
  pkcs12Decode : String → String → Except String (List Cert)
  sha1 : List Nat → List Nat

/-- Errors of `genCertFingerprint`, one per throw site: the explicit input
type check (lines 24-26), a decoding failure propagating out of forge
(lines 30-32), and the missing cert-bag check (lines 34-36). -/
inductive FpError where
  | unsupportedInputType
  | invalidContainerFormat (message : String)
  | missingCertificateBag
deriving DecidableEq

/-- The `p12Buffer` argument: a Node `Buffer`, a string, or anything else. -/
inductive P12Input where
  | buffer (bytes : List Nat)
  | str (s : String)
  | other (v : JSValue)

/-- The body of `genCertFingerprint` from line 30 on, once the input has
been normalised to a base64 string: run the forge decode pipeline (a
decoding throw surfaces as `InvalidContainerFormat`), require the first
cert bag, and return the upper-cased hex SHA-1 of the certificate's DER
bytes. -/
def fingerprintOfBase64 (F : ForgeModel) (p12b64 password : String) :
    Except FpError String :=
  match F.pkcs12Decode p12b64 password with
  | .error msg => .error (.invalidContainerFormat msg)
  | .ok certs =>
    match certs.head? with
    | none => .error .missingCertificateBag
    | some cert => .ok (jsToUpperCase (toHexStr (F.sha1 cert.der)))

/-- `genCertFingerprint` (lines 21-45).  A buffer is first converted to its
base64 string (`p12Buffer.toString('base64')`), a string passes through, a
non-string non-buffer throws; the password defaults to the empty string
(`String(passwordRaw || '')`, with the password modelled as an optional
string). -/
def genCertFingerprint (F : ForgeModel) (p12Buffer : P12Input)
    (passwordRaw : Option String) : Except FpError String :=
  match p12Buffer with
  | .other _ => .error .unsupportedInputType
  | .buffer b => fingerprintOfBase64 F (base64Encode b) (passwordRaw.getD "")
  | .str s => fingerprintOfBase64 F s (passwordRaw.getD "")

/-- `identities.indexOf(fingerprint) !== -1`: substring occurrence. -/
def strContains (hay needle : String) : Bool :=
  (List.range (hay.data.length + 1)).any
    (fun i => needle.data.isPrefixOf (hay.data.drop i))

/-- Failure of `ensureCertificateValid`: either the fingerprint computation
threw, or the fingerprint is not in the identity listing (line 16). -/
inductive ValidationError where
  | fingerprintFailure (e : FpError)
  | certificateNotTrusted (message : String)
deriving DecidableEq

/-- `ensureCertificateValid` (lines 10-19).  `certData` is the byte content
read from the certificate file (a `Buffer`); `identities` is the joined
output text of the external `security find-identity` call, modelled as an
input.  The fingerprint is returned iff it occurs in the listing;
otherwise the code throws with a message carrying both the fingerprint and
the listing. -/
def ensureCertificateValid (F : ForgeModel) (certData : List Nat)
    (certPassword : Option String) (identities : String) :
    Except ValidationError String :=
  match genCertFingerprint F (.buffer certData) certPassword with
  | .error e => .error (.fingerprintFailure e)
  | .ok fingerprint =>
    if strContains identities fingerprint then .ok fingerprint
    else .error (.certificateNotTrusted
      ("codesign ident not present in find-identity: " ++ fingerprint ++ "\n" ++ identities))

/-- Modelled from the spec: the export-method decision policy exactly as
section 4.3 words it, with branch 1 demanding an explicit NON-EMPTY list of
provisioned devices.  Kept separate from `resolveExportMethod` (the
source's version) so the two can be compared. -/
def specResolveExportMethod (plistData : EDict) : String :=
  if (match jsGet plistData "ProvisionedDevices" with
      | .arr xs => !xs.isEmpty
      | _ => false) then "ad-hoc"
  else if isTrue (jsGet plistData "ProvisionsAllDevices") then "enterprise"
  else "app-store"

/-! ## Dictionary lemmas -/

theorem hasKey_nil (k : String) : hasKey [] k = false := rfl

theorem hasKey_cons (p : String × JSValue) (t : EDict) (k : String) :
    hasKey (p :: t) k = (p.1 == k || hasKey t k) := rfl

theorem lookupKey_eq_none_iff (d : EDict) (k : String) :
    lookupKey d k = none ↔ hasKey d k = false := by
  induction d with
  | nil => simp [lookupKey, hasKey]
  | cons p t ih =>
    by_cases h : p.1 = k
    · simp [lookupKey, hasKey, h]
    · simp [lookupKey, hasKey, beq_eq_false_iff_ne.mpr h, ih]

theorem hasKey_of_lookupKey_some (d : EDict) (k : String) (v : JSValue)
    (h : lookupKey d k = some v) : hasKey d k = true := by
  by_contra hfalse
  have : lookupKey d k = none := (lookupKey_eq_none_iff d k).mpr (by
    cases hk : hasKey d k
    · rfl
    · exact absurd hk hfalse)
  rw [this] at h
  exact Option.noConfusion h

theorem hasKey_map_overwrite (d : EDict) (k k' : String) (v : JSValue) :
    hasKey (d.map (fun p => if p.1 == k then (k, v) else p)) k' = hasKey d k' := by
  induction d with
  | nil => rfl
  | cons p t ih =>
    rw [List.map_cons, hasKey_cons, hasKey_cons, ih]
    by_cases h : p.1 = k
    · simp [h]
    · simp [beq_eq_false_iff_ne.mpr h]

theorem hasKey_setKey (d : EDict) (k k' : String) (v : JSValue) :
    hasKey (setKey d k v) k' = (hasKey d k' || k == k') := by
  unfold setKey
  by_cases hd : hasKey d k
  · rw [if_pos hd, hasKey_map_overwrite]
    by_cases hk : k = k'
    · subst hk
      simp [hd]
    · simp [beq_eq_false_iff_ne.mpr hk]
  · rw [if_neg hd]
    induction d with
    | nil => simp [hasKey_cons, hasKey_nil]
    | cons p t ih =>
      simp only [List.cons_append, hasKey_cons] at *
      rw [ih (by intro hh; exact hd (by simp [hasKey_cons, hh]))]
      cases hp : (p.1 == k') <;> simp

theorem hasKey_applyTransferRules (rules : List String) (archive : EDict) :
    ∀ (ent : EDict) (k : String),
      hasKey (applyTransferRules rules archive ent) k =
        (hasKey ent k || (rules.contains k && hasKey archive k)) := by
  induction rules with
  | nil => intro ent k; simp [applyTransferRules]
  | cons r rs ih =>
    intro ent k
    have step :
        applyTransferRules (r :: rs) archive ent =
          applyTransferRules rs archive
            (match lookupKey archive r with
             | some v => setKey ent r v
             | none => ent) := rfl
    rw [step]
    cases hl : lookupKey archive r with
    | none =>
      have hr : hasKey archive r = false := (lookupKey_eq_none_iff archive r).mp hl
      rw [ih]
      by_cases hk : k = r
      · subst hk
        simp [hr, List.contains_cons]
      · simp [List.contains_cons, hk, beq_eq_false_iff_ne.mpr hk]
    | some v =>
      have hr : hasKey archive r = true := hasKey_of_lookupKey_some archive r v hl
      rw [ih, hasKey_setKey]
      by_cases hk : k = r
      · subst hk
        simp [hr, List.contains_cons]
      · simp [List.contains_cons, hk, beq_eq_false_iff_ne.mpr hk,
          beq_eq_false_iff_ne.mpr (Ne.symm hk)]

theorem hasKey_filter_blacklist (bl : List String) :
    ∀ (d : EDict) (k : String),
      hasKey (d.filter (fun p => !bl.contains p.1)) k = (hasKey d k && !bl.contains k) := by
  intro d
  induction d with
  | nil => intro k; simp [hasKey_nil]
  | cons p t ih =>
    intro k
    rw [List.filter_cons]
    by_cases hmem : p.1 ∈ bl
    · rw [if_neg (by simp [hmem]), ih, hasKey_cons]
      by_cases hpk : p.1 = k
      · subst hpk
        simp [hmem]
      · simp [beq_eq_false_iff_ne.mpr hpk]
    · rw [if_pos (by simp [hmem]), hasKey_cons, ih, hasKey_cons]
      by_cases hpk : p.1 = k
      · subst hpk
        simp [hmem]
      · simp [beq_eq_false_iff_ne.mpr hpk]

/-- Key-set characterisation of the merge, for arbitrary rule sets. -/
theorem hasKey_mergeEntitlements (profile archive : EDict) (rules bl : List String)
    (k : String) :
    hasKey (mergeEntitlements profile archive rules bl) k =
      ((hasKey profile k || (rules.contains k && hasKey archive k)) && !bl.contains k) := by
  unfold mergeEntitlements
  rw [hasKey_filter_blacklist, hasKey_applyTransferRules]

theorem lookupKey_map_overwrite_ne (k k' : String) (v : JSValue) (h : ¬ k' = k) :
    ∀ d : EDict,
      lookupKey (d.map (fun p => if p.1 == k then (k, v) else p)) k' = lookupKey d k' := by
  intro d
  induction d with
  | nil => rfl
  | cons p t ih =>
    rw [List.map_cons]
    by_cases hp : p.1 = k
    · have hc : (p.1 == k) = true := beq_iff_eq.mpr hp
      have hkk : ¬ k = k' := fun hh => h hh.symm
      rw [show (if p.1 == k then (k, v) else p) = (k, v) from if_pos hc]
      show (if k == k' then some v else _) = _
      rw [if_neg (by simp [hkk]),
        show lookupKey (p :: t) k' = if p.1 == k' then some p.2 else lookupKey t k' from rfl,
        if_neg (by simp [hp, hkk]), ih]
    · rw [show (if p.1 == k then (k, v) else p) = p from if_neg (by simp [hp])]
      show (if p.1 == k' then some p.2 else _) = _
      rw [show lookupKey (p :: t) k' = if p.1 == k' then some p.2 else lookupKey t k' from rfl]
      by_cases hk : p.1 = k'
      · rw [if_pos (beq_iff_eq.mpr hk), if_pos (beq_iff_eq.mpr hk)]
      · rw [if_neg (by simp [hk]), if_neg (by simp [hk]), ih]

theorem lookupKey_setKey_ne (d : EDict) (k k' : String) (v : JSValue) (h : ¬ k' = k) :
    lookupKey (setKey d k v) k' = lookupKey d k' := by
  unfold setKey
  by_cases hd : hasKey d k
  · rw [if_pos hd, lookupKey_map_overwrite_ne k k' v h]
  · rw [if_neg hd]
    induction d with
    | nil =>
      have hkk : ¬ k = k' := fun hh => h hh.symm
      show (if (k == k') = true then some v else none) = none
      rw [if_neg (by simp [hkk])]
    | cons p t ih =>
      show (if p.1 == k' then some p.2 else lookupKey (t ++ [(k, v)]) k') = _
      rw [show lookupKey (p :: t) k' = if p.1 == k' then some p.2 else lookupKey t k' from rfl]
      by_cases hk : p.1 = k'
      · rw [if_pos (beq_iff_eq.mpr hk), if_pos (beq_iff_eq.mpr hk)]
      · rw [if_neg (by simp [hk]), if_neg (by simp [hk]),
          ih (fun hh => hd (by rw [hasKey_cons, hh]; simp))]

theorem lookupKey_applyTransferRules_untouched (archive : EDict) (k : String) :
    ∀ (rules : List String) (ent : EDict),
      (rules.contains k = false ∨ hasKey archive k = false) →
      lookupKey (applyTransferRules rules archive ent) k = lookupKey ent k := by
  intro rules
  induction rules with
  | nil => intro ent _; rfl
  | cons r rs ih =>
    intro ent hside
    have step :
        applyTransferRules (r :: rs) archive ent =
          applyTransferRules rs archive
            (match lookupKey archive r with
             | some v => setKey ent r v
             | none => ent) := rfl
    rw [step]
    have hside' : rs.contains k = false ∨ hasKey archive k = false := by
      rcases hside with hc | ha
      · left
        rw [List.contains_cons] at hc
        exact (Bool.or_eq_false_iff.mp hc).2
      · right; exact ha
    cases hl : lookupKey archive r with
    | none => rw [ih _ hside']
    | some v =>
      rw [ih _ hside']
      have hkr : ¬ k = r := by
        intro hh
        subst hh
        rcases hside with hc | ha
        · rw [List.contains_cons] at hc
          simp at hc
        · rw [hasKey_of_lookupKey_some archive k v hl] at ha
          exact Bool.noConfusion ha
      exact lookupKey_setKey_ne ent r k v hkr

theorem lookupKey_filter_not_blacklisted (bl : List String) (k : String)
    (hk : ¬ k ∈ bl) :
    ∀ d : EDict,
      lookupKey (d.filter (fun p => !bl.contains p.1)) k = lookupKey d k := by
  intro d
  induction d with
  | nil => rfl
  | cons p t ih =>
    rw [List.filter_cons,
      show lookupKey (p :: t) k = if p.1 == k then some p.2 else lookupKey t k from rfl]
    by_cases hmem : p.1 ∈ bl
    · rw [if_neg (by simp [hmem])]
      have hpk : ¬ p.1 = k := fun hh => hk (hh ▸ hmem)
      rw [if_neg (by simp [hpk]), ih]
    · rw [if_pos (by simp [hmem])]
      show (if p.1 == k then some p.2 else _) = _
      by_cases hpk : p.1 = k
      · rw [if_pos (beq_iff_eq.mpr hpk), if_pos (beq_iff_eq.mpr hpk)]
      · rw [if_neg (by simp [hpk]), if_neg (by simp [hpk]), ih]

/-! ## Bridging the JavaScript-typed merge to the dictionary merge -/

theorem jsGet_eq_of_lookupKey_some (d : EDict) (k : String) (v : JSValue)
    (h : lookupKey d k = some v) : jsGet d k = v := by
  unfold jsGet
  rw [h]
  rfl

theorem mergeJS_foldlM_dict (d : EDict) :
    ∀ (rules : List String) (acc : EDict),
      (rules.foldlM (transferStepJS (JSValue.dict d)) acc : Except JSError EDict)
        = .ok (applyTransferRules rules d acc) := by
  intro rules
  induction rules with
  | nil => intro acc; rfl
  | cons r rs ih =>
    intro acc
    have hstep : transferStepJS (JSValue.dict d) acc r =
        if hasKey d r then pure (setKey acc r (jsGet d r)) else pure acc := rfl
    have hcons : (List.foldlM (transferStepJS (JSValue.dict d)) acc (r :: rs)
          : Except JSError EDict)
        = (transferStepJS (JSValue.dict d) acc r >>= fun a =>
            List.foldlM (transferStepJS (JSValue.dict d)) a rs) := rfl
    have hA : applyTransferRules (r :: rs) d acc =
        applyTransferRules rs d
          (match lookupKey d r with
           | some v => setKey acc r v
           | none => acc) := rfl
    rw [hcons, hstep, hA]
    cases hl : lookupKey d r with
    | none =>
      have hr : hasKey d r = false := (lookupKey_eq_none_iff d r).mp hl
      rw [if_neg (by simp [hr])]
      exact ih acc
    | some v =>
      have hr : hasKey d r = true := hasKey_of_lookupKey_some d r v hl
      rw [if_pos hr, jsGet_eq_of_lookupKey_some d r v hl]
      exact ih (setKey acc r v)

theorem mergeEntitlementsJS_dict (profile : JSValue) (d : EDict) :
    mergeEntitlementsJS profile (JSValue.dict d) =
      .ok (mergeEntitlements (jsSpread profile) d
        entitlementTransferRules blacklistedEntitlementKeys) := by
  have hdo : mergeEntitlementsJS profile (JSValue.dict d) =
      (entitlementTransferRules.foldlM (transferStepJS (JSValue.dict d))
          (jsSpread profile) >>= fun ent =>
        pure (ent.filter (fun p => !blacklistedEntitlementKeys.contains p.1))) := rfl
  rw [hdo, mergeJS_foldlM_dict]
  rfl

/-! ## Fingerprint format and substring lemmas -/

theorem length_toHexChars (bytes : List Nat) :
    (toHexChars bytes).length = 2 * bytes.length := by
  induction bytes with
  | nil => rfl
  | cons b t ih =>
    show (toHexChars t).length + 1 + 1 = 2 * (t.length + 1)
    omega

theorem isUpperHexChar_toUpper_hexDigit (n : Nat) :
    (('0' ≤ Char.toUpper (hexDigit n) ∧ Char.toUpper (hexDigit n) ≤ '9')
      ∨ ('A' ≤ Char.toUpper (hexDigit n) ∧ Char.toUpper (hexDigit n) ≤ 'F')) := by
  have hmod : hexDigit n = hexDigit (n % 16) := by
    unfold hexDigit
    rw [Nat.mod_mod_of_dvd n (dvd_refl 16)]
  have key : ∀ m, m < 16 →
      (('0' ≤ Char.toUpper (hexDigit m) ∧ Char.toUpper (hexDigit m) ≤ '9')
        ∨ ('A' ≤ Char.toUpper (hexDigit m) ∧ Char.toUpper (hexDigit m) ≤ 'F')) := by
    decide
  rw [hmod]
  exact key (n % 16) (Nat.mod_lt n (by omega))

theorem mem_toHexChars_upperHex (bytes : List Nat) (c : Char)
    (hc : c ∈ (toHexChars bytes).map Char.toUpper) :
    (('0' ≤ c ∧ c ≤ '9') ∨ ('A' ≤ c ∧ c ≤ 'F')) := by
  induction bytes with
  | nil => simp [toHexChars] at hc
  | cons b t ih =>
    simp only [toHexChars, List.map_cons, List.mem_cons] at hc
    rcases hc with h | h | h
    · subst h; exact isUpperHexChar_toUpper_hexDigit _
    · subst h; exact isUpperHexChar_toUpper_hexDigit _
    · exact ih (by simpa using h)

theorem strContains_mid (a b c : String) : strContains (a ++ (b ++ c)) b = true := by
  unfold strContains
  rw [List.any_eq_true]
  refine ⟨a.data.length, ?_, ?_⟩
  · rw [List.mem_range, String.data_append, String.data_append, List.length_append]
    omega
  · rw [String.data_append, String.data_append, List.drop_left,
      List.isPrefixOf_iff_prefix]
    exact List.prefix_append _ _

theorem strContains_suffix (a b : String) : strContains (a ++ b) b = true := by
  unfold strContains
  rw [List.any_eq_true]
  refine ⟨a.data.length, ?_, ?_⟩
  · rw [List.mem_range, String.data_append, List.length_append]
    omega
  · rw [String.data_append, List.drop_left, List.isPrefixOf_iff_prefix]

/-! ## Claim theorems -/

/-- C1: for all dictionary inputs, the key set of the entitlements merge
result is the profile's keys, united with the transfer rules intersected
with the archive's keys, minus the blacklist.  In particular a key in both
the transfer rules and the blacklist (`inter-app-audio` present in the
archive, empty profile) never appears in the result, and a key absent from
both the profile and the transfer rules never appears in the result. -/
theorem C1_merge_key_set_invariant :
    (∀ (profile archive : EDict) (k : String),
        hasKey (mergeEntitlements profile archive
            entitlementTransferRules blacklistedEntitlementKeys) k =
          ((hasKey profile k
              || (entitlementTransferRules.contains k && hasKey archive k))
            && !blacklistedEntitlementKeys.contains k))
    ∧ hasKey (mergeEntitlements [] [("inter-app-audio", JSValue.bool true)]
        entitlementTransferRules blacklistedEntitlementKeys) "inter-app-audio" = false
    ∧ (∀ (profile archive : EDict) (k : String),
        hasKey profile k = false →
        entitlementTransferRules.contains k = false →
        hasKey (mergeEntitlements profile archive
            entitlementTransferRules blacklistedEntitlementKeys) k = false) := by
  refine ⟨fun p a k => hasKey_mergeEntitlements p a _ _ k, ?_, fun p a k h1 h2 => ?_⟩
  · rfl
  · rw [hasKey_mergeEntitlements, h1, h2]
    rfl

/-- Witness for C1 at a concrete input: the key `com.apple.developer.siri`
is absent from the profile and from the transfer rules, so it never appears
in the merge result. -/
theorem C1_merge_key_set_invariant_witness :
    hasKey (mergeEntitlements
        [("aps-environment", JSValue.str "production")]
        [("com.apple.developer.siri", JSValue.bool true)]
        entitlementTransferRules blacklistedEntitlementKeys)
      "com.apple.developer.siri" = false :=
  C1_merge_key_set_invariant.2.2
    [("aps-environment", JSValue.str "production")]
    [("com.apple.developer.siri", JSValue.bool true)]
    "com.apple.developer.siri" (by rfl) (by rfl)

/-- C5: with the default transfer-rule and blacklist sets, the merge of
profile `keychain-access-groups: [x], com.apple.developer.maps: true` with
archive `keychain-access-groups: [y, z]` is exactly
`keychain-access-groups: [y, z]`; and a transfer-rule key absent from the
profile is added with the archive's value. -/
theorem C5_merge_concrete_example :
    mergeEntitlements
        [("keychain-access-groups", JSValue.arr [JSValue.str "x"]),
         ("com.apple.developer.maps", JSValue.bool true)]
        [("keychain-access-groups", JSValue.arr [JSValue.str "y", JSValue.str "z"])]
        entitlementTransferRules blacklistedEntitlementKeys
      = [("keychain-access-groups", JSValue.arr [JSValue.str "y", JSValue.str "z"])]
    ∧ (∀ v : JSValue,
        mergeEntitlements [] [("keychain-access-groups", v)]
          entitlementTransferRules blacklistedEntitlementKeys
        = [("keychain-access-groups", v)]) :=
  ⟨rfl, fun _ => rfl⟩

/-- C10: any profile key that is neither blacklisted nor the target of a
transfer from the archive keeps exactly its profile value in the merge
result.  (The embedding is purely functional, so neither input dictionary
is mutated: the code builds the working copy with an object spread and only
reads the archive.) -/
theorem C10_profile_keys_preserved :
    ∀ (profile archive : EDict) (k : String),
      blacklistedEntitlementKeys.contains k = false →
      (entitlementTransferRules.contains k = false ∨ hasKey archive k = false) →
      lookupKey (mergeEntitlements profile archive
          entitlementTransferRules blacklistedEntitlementKeys) k
        = lookupKey profile k := by
  intro p a k hbl hside
  unfold mergeEntitlements
  rw [lookupKey_filter_not_blacklisted blacklistedEntitlementKeys k
      (by simpa using hbl) _,
    lookupKey_applyTransferRules_untouched a k entitlementTransferRules p hside]

/-- Witness for C10: `aps-environment` is neither blacklisted nor a
transfer rule, so its profile value survives the merge untouched. -/
theorem C10_profile_keys_preserved_witness :
    lookupKey (mergeEntitlements
        [("aps-environment", JSValue.str "production")]
        [("inter-app-audio", JSValue.bool true)]
        entitlementTransferRules blacklistedEntitlementKeys) "aps-environment"
      = lookupKey [("aps-environment", JSValue.str "production")] "aps-environment" :=
  C10_profile_keys_preserved
    [("aps-environment", JSValue.str "production")]
    [("inter-app-audio", JSValue.bool true)]
    "aps-environment" (by rfl) (Or.inl (by rfl))

/-- C2 counterexample: with `ProvisionedDevices` present but EMPTY and
`ProvisionsAllDevices` exactly `true`, the claim's policy (non-empty list
required for `ad-hoc`) answers `enterprise`, but the code's truthiness test
(`if (plistData.ProvisionedDevices)`) fires on the empty array — an object,
hence truthy — and answers `ad-hoc`. -/
theorem C2_counterexample :
    resolveExportMethod
        [("ProvisionedDevices", JSValue.arr []),
         ("ProvisionsAllDevices", JSValue.bool true)] = "ad-hoc"
    ∧ specResolveExportMethod
        [("ProvisionedDevices", JSValue.arr []),
         ("ProvisionsAllDevices", JSValue.bool true)] = "enterprise" :=
  ⟨rfl, rfl⟩

/-- C2 (amended): `resolveExportMethod` evaluates exactly one branch in
fixed priority order — if `ProvisionedDevices` is present with a truthy
value (any array, even empty, is truthy) it returns `ad-hoc`; otherwise if
`ProvisionsAllDevices` is exactly `true` it returns `enterprise`; otherwise
(including when both markers are absent) it returns `app-store`. -/
theorem C2_export_method_priority (plistData : EDict) :
    (truthy (jsGet plistData "ProvisionedDevices") = true →
        resolveExportMethod plistData = "ad-hoc")
    ∧ (truthy (jsGet plistData "ProvisionedDevices") = false →
        isTrue (jsGet plistData "ProvisionsAllDevices") = true →
        resolveExportMethod plistData = "enterprise")
    ∧ (truthy (jsGet plistData "ProvisionedDevices") = false →
        isTrue (jsGet plistData "ProvisionsAllDevices") = false →
        resolveExportMethod plistData = "app-store") := by
  unfold resolveExportMethod
  refine ⟨fun h1 => ?_, fun h1 h2 => ?_, fun h1 h2 => ?_⟩
  · rw [if_pos h1]
  · rw [if_neg (by simp [h1]), if_pos h2]
  · rw [if_neg (by simp [h1]), if_neg (by simp [h2])]

/-- Witness for C2 (amended), on the spec's own three examples. -/
theorem C2_export_method_priority_witness :
    resolveExportMethod [("ProvisionedDevices", JSValue.arr [JSValue.str "a"])] = "ad-hoc"
    ∧ resolveExportMethod [("ProvisionsAllDevices", JSValue.bool true)] = "enterprise"
    ∧ resolveExportMethod [] = "app-store" :=
  ⟨(C2_export_method_priority _).1 (by rfl),
   (C2_export_method_priority _).2.1 (by rfl) (by rfl),
   (C2_export_method_priority _).2.2 (by rfl) (by rfl)⟩

/-- C8: the archive-entitlements discovery requires exactly one glob match:
zero matches throw `ArchiveEntitlementsNotFound`, more than one throws
`ArchiveEntitlementsAmbiguous`, and only a unique match proceeds (with that
path). -/
theorem C8_discovery_requires_exactly_one :
    ∀ paths : List String,
      (paths.length = 0 →
        selectArchiveEntitlementsPath paths = .error .archiveEntitlementsNotFound)
      ∧ (1 < paths.length →
        selectArchiveEntitlementsPath paths = .error .archiveEntitlementsAmbiguous)
      ∧ (∀ p, paths = [p] → selectArchiveEntitlementsPath paths = .ok p) := by
  intro paths
  refine ⟨fun h0 => ?_, fun h1 => ?_, fun p hp => ?_⟩
  · unfold selectArchiveEntitlementsPath
    rw [if_pos (by simp [h0])]
  · unfold selectArchiveEntitlementsPath
    rw [if_neg (by simp only [beq_iff_eq]; omega), if_pos (by simp only [bne_iff_ne]; omega)]
  · subst hp
    rfl

/-- Witness for C8 at zero, two and one matches. -/
theorem C8_discovery_requires_exactly_one_witness :
    selectArchiveEntitlementsPath [] = .error .archiveEntitlementsNotFound
    ∧ selectArchiveEntitlementsPath
        ["a/ExpoKitApp.app/x.entitlements", "a/ExpoKitApp.app/y.entitlements"]
        = .error .archiveEntitlementsAmbiguous
    ∧ selectArchiveEntitlementsPath ["a/ExpoKitApp.app/x.entitlements"]
        = .ok "a/ExpoKitApp.app/x.entitlements" :=
  ⟨(C8_discovery_requires_exactly_one []).1 rfl,
   (C8_discovery_requires_exactly_one _).2.1 (by decide),
   (C8_discovery_requires_exactly_one _).2.2 _ rfl⟩

/-- A successful fingerprint always comes from some certificate's digest. -/
theorem fingerprintOfBase64_ok_shape (F : ForgeModel) (s pwd fp : String)
    (h : fingerprintOfBase64 F s pwd = .ok fp) :
    ∃ cert : Cert, fp = jsToUpperCase (toHexStr (F.sha1 cert.der)) := by
  unfold fingerprintOfBase64 at h
  split at h
  · exact absurd h (by simp)
  · split at h
    · exact absurd h (by simp)
    · rename_i cert heq
      injection h with h2
      exact ⟨cert, h2.symm⟩

/-- C4 counterexample: with a non-mapping profile (`undefined`) and an
empty-object archive, the merge of `createEntitlementsFile` SUCCEEDS,
returning the empty dictionary; it does not fail, and the code contains no
`InvalidEntitlementsInput` signal at all. -/
theorem C4_counterexample :
    mergeEntitlementsJS JSValue.undef (JSValue.dict []) = .ok [] := rfl

/-- C4 (amended): the merge performs no input validation.  Whatever the
profile value is — mapping or not — it is coerced by object spread and the
merge succeeds whenever the archive is a mapping; a primitive archive makes
the first `rule in archive` test throw a `TypeError`, never an
`InvalidEntitlementsInput` error. -/
theorem C4_no_input_validation :
    (∀ (profile : JSValue) (d : EDict),
        mergeEntitlementsJS profile (JSValue.dict d) =
          .ok (mergeEntitlements (jsSpread profile) d
            entitlementTransferRules blacklistedEntitlementKeys))
    ∧ (∀ (profile : JSValue) (b : Bool),
        mergeEntitlementsJS profile (JSValue.bool b) = .error .typeError)
    ∧ (∀ (profile : JSValue) (s : String),
        mergeEntitlementsJS profile (JSValue.str s) = .error .typeError)
    ∧ (∀ profile : JSValue,
        mergeEntitlementsJS profile JSValue.null = .error .typeError) :=
  ⟨mergeEntitlementsJS_dict, fun _ _ => rfl, fun _ _ => rfl, fun _ => rfl⟩

/-- C7: the fingerprint of a raw binary buffer equals the fingerprint of
its base64 encoding — the buffer branch converts to the canonical base64
string and continues identically. -/
theorem C7_buffer_base64_equivalence :
    ∀ (F : ForgeModel) (b : List Nat) (pw : Option String),
      genCertFingerprint F (.buffer b) pw
        = genCertFingerprint F (.str (base64Encode b)) pw :=
  fun _ _ _ => rfl

/-- C6: `genCertFingerprint` fails with `UnsupportedInputType` on every
input that is neither a string nor a buffer, with `InvalidContainerFormat`
whenever the PKCS#12 decode throws (for string and buffer inputs alike),
and with `MissingCertificateBag` on every decode that yields zero
certificate bags. -/
theorem C6_fingerprint_error_modes :
    ∀ (F : ForgeModel) (pw : Option String),
      (∀ v : JSValue,
        genCertFingerprint F (.other v) pw = .error .unsupportedInputType)
      ∧ (∀ (s msg : String), F.pkcs12Decode s (pw.getD "") = .error msg →
          genCertFingerprint F (.str s) pw = .error (.invalidContainerFormat msg))
      ∧ (∀ (b : List Nat) (msg : String),
          F.pkcs12Decode (base64Encode b) (pw.getD "") = .error msg →
          genCertFingerprint F (.buffer b) pw = .error (.invalidContainerFormat msg))
      ∧ (∀ s : String, F.pkcs12Decode s (pw.getD "") = .ok [] →
          genCertFingerprint F (.str s) pw = .error .missingCertificateBag)
      ∧ (∀ b : List Nat, F.pkcs12Decode (base64Encode b) (pw.getD "") = .ok [] →
          genCertFingerprint F (.buffer b) pw = .error .missingCertificateBag) := by
  intro F pw
  refine ⟨fun v => rfl, fun s msg h => ?_, fun b msg h => ?_,
    fun s h => ?_, fun b h => ?_⟩
  · show fingerprintOfBase64 F s (pw.getD "") = _
    unfold fingerprintOfBase64
    rw [h]
  · show fingerprintOfBase64 F (base64Encode b) (pw.getD "") = _
    unfold fingerprintOfBase64
    rw [h]
  · show fingerprintOfBase64 F s (pw.getD "") = _
    unfold fingerprintOfBase64
    rw [h]
    rfl
  · show fingerprintOfBase64 F (base64Encode b) (pw.getD "") = _
    unfold fingerprintOfBase64
    rw [h]
    rfl

/-- C9: under the SHA-1 contract (20-byte digests), every successful
fingerprint computation is deterministic and returns a 40-character string
of upper-case hexadecimal characters. -/
theorem C9_fingerprint_deterministic_format :
    ∀ (F : ForgeModel) (input : P12Input) (pw : Option String) (fp : String),
      (∀ bs : List Nat, (F.sha1 bs).length = 20) →
      genCertFingerprint F input pw = .ok fp →
      genCertFingerprint F input pw = genCertFingerprint F input pw
      ∧ fp.length = 40
      ∧ (∀ c ∈ fp.data, (('0' ≤ c ∧ c ≤ '9') ∨ ('A' ≤ c ∧ c ≤ 'F'))) := by
  intro F input pw fp hsha hok
  have shape : ∃ cert : Cert, fp = jsToUpperCase (toHexStr (F.sha1 cert.der)) := by
    cases input with
    | other v => exact absurd hok (by simp [genCertFingerprint])
    | buffer b => exact fingerprintOfBase64_ok_shape F (base64Encode b) (pw.getD "") fp hok
    | str s => exact fingerprintOfBase64_ok_shape F s (pw.getD "") fp hok
  rcases shape with ⟨cert, hfp⟩
  subst hfp
  refine ⟨rfl, ?_, ?_⟩
  · show ((toHexChars (F.sha1 cert.der)).map Char.toUpper).length = 40
    rw [List.length_map, length_toHexChars, hsha]
  · intro c hc
    exact mem_toHexChars_upperHex (F.sha1 cert.der) c hc

/-- C3: `ensureCertificateValid` returns the computed fingerprint iff it
occurs as a substring of the identity-listing text; otherwise it fails with
a certificate-not-trusted error whose message contains both the fingerprint
and the full listing text. -/
theorem C3_certificate_validation :
    ∀ (F : ForgeModel) (certData : List Nat) (pw : Option String)
      (identities fp : String),
      genCertFingerprint F (.buffer certData) pw = .ok fp →
      ((strContains identities fp = true →
          ensureCertificateValid F certData pw identities = .ok fp)
        ∧ (strContains identities fp = false →
            ensureCertificateValid F certData pw identities
              = .error (.certificateNotTrusted
                  ("codesign ident not present in find-identity: "
                    ++ fp ++ "\n" ++ identities))
            ∧ strContains
                ("codesign ident not present in find-identity: "
                  ++ fp ++ "\n" ++ identities) fp = true
            ∧ strContains
                ("codesign ident not present in find-identity: "
                  ++ fp ++ "\n" ++ identities) identities = true)) := by
  intro F certData pw ids fp hok
  have hstep : ensureCertificateValid F certData pw ids =
      (if strContains ids fp then .ok fp
       else .error (.certificateNotTrusted
         ("codesign ident not present in find-identity: " ++ fp ++ "\n" ++ ids))) := by
    unfold ensureCertificateValid
    rw [hok]
  refine ⟨fun hc => ?_, fun hc => ⟨?_, ?_, ?_⟩⟩
  · rw [hstep, if_pos hc]
  · rw [hstep, if_neg (by simp [hc])]
  · rw [String.append_assoc, String.append_assoc]
    exact strContains_mid "codesign ident not present in find-identity: " fp ("\n" ++ ids)
  · exact strContains_suffix _ ids

/-! ## Concrete forge models, for the witnesses -/

/-- A forge model whose decode always finds one certificate and whose
digest is twenty zero bytes. -/
def constSha1Model : ForgeModel where
  pkcs12Decode := fun _ _ => .ok [⟨[48, 130]⟩]
  sha1 := fun _ => List.replicate 20 0

/-- A forge model whose decode always throws. -/
def failingDecodeModel : ForgeModel where
  pkcs12Decode := fun _ _ => .error "PKCS#12 MAC could not be verified. Invalid password?"
  sha1 := fun _ => List.replicate 20 0

/-- A forge model whose decode succeeds with zero certificate bags. -/
def emptyBagModel : ForgeModel where
  pkcs12Decode := fun _ _ => .ok []
  sha1 := fun _ => List.replicate 20 0

/-- Witness for C6 on each error mode. -/
theorem C6_fingerprint_error_modes_witness :
    genCertFingerprint constSha1Model (.other JSValue.null) none
      = .error .unsupportedInputType
    ∧ genCertFingerprint failingDecodeModel (.str "AAAA") none
      = .error (.invalidContainerFormat
          "PKCS#12 MAC could not be verified. Invalid password?")
    ∧ genCertFingerprint emptyBagModel (.buffer [1, 2, 3]) none
      = .error .missingCertificateBag :=
  ⟨(C6_fingerprint_error_modes constSha1Model none).1 JSValue.null,
   (C6_fingerprint_error_modes failingDecodeModel none).2.1 "AAAA" _ rfl,
   (C6_fingerprint_error_modes emptyBagModel none).2.2.2.2 [1, 2, 3] rfl⟩

/-- Witness for C9 on a concrete model: the all-zero digest yields the
40-character string of zeros. -/
theorem C9_fingerprint_deterministic_format_witness :
    genCertFingerprint constSha1Model (.str "AAAA") none
        = genCertFingerprint constSha1Model (.str "AAAA") none
    ∧ ("0000000000000000000000000000000000000000" : String).length = 40
    ∧ (∀ c ∈ ("0000000000000000000000000000000000000000" : String).data,
        (('0' ≤ c ∧ c ≤ '9') ∨ ('A' ≤ c ∧ c ≤ 'F'))) :=
  C9_fingerprint_deterministic_format constSha1Model (.str "AAAA") none
    "0000000000000000000000000000000000000000" (fun _ => rfl) (by rfl)

/-- Witness for C3: the all-zero fingerprint validates against a listing
containing it and is rejected against the empty listing. -/
theorem C3_certificate_validation_witness :
    ensureCertificateValid constSha1Model [] none
        "0000000000000000000000000000000000000000\n"
      = .ok "0000000000000000000000000000000000000000"
    ∧ ensureCertificateValid constSha1Model [] none ""
      = .error (.certificateNotTrusted
          ("codesign ident not present in find-identity: "
            ++ "0000000000000000000000000000000000000000" ++ "\n" ++ "")) :=
  ⟨(C3_certificate_validation constSha1Model [] none
      "0000000000000000000000000000000000000000\n"
      "0000000000000000000000000000000000000000" (by rfl)).1 (by rfl),
   ((C3_certificate_validation constSha1Model [] none ""
      "0000000000000000000000000000000000000000" (by rfl)).2 (by rfl)).1⟩

end IosUtils
